import Mathlib

/-!
Verification of the core components of the `opensubtitles-com` repository:
the file-fingerprinting algorithm (`FileUtils.get_hash`, `FileUtils.get_md5`
in `src/opensubtitlescom/file_utils.py`), the SRT subtitle codec used by
`OpenSubtitles.parse_srt`, and small helpers of `OpenSubtitles`
(`str_to_bytes`, `download`) in `src/opensubtitlescom/opensubtitles.py`.

Files are modelled as `Option (List Nat)`: `none` is a path that does not
exist, `some data` an existing file whose byte stream is `data`
(each entry a byte value `0 ≤ b < 256`).
-/

/-! ## Decimal and hexadecimal digit rendering

Python renders numbers with `str` and `"%016x" %`; these helpers reproduce
that rendering: most-significant-first digit lists, lowercase hex,
left zero-padding that never truncates. -/

/-- Base-10 digits of `n`, most significant first (`str(n)` digit by digit). -/
def natDigits (n : Nat) : List Nat :=
  if n < 10 then [n] else natDigits (n / 10) ++ [n % 10]
termination_by n
decreasing_by
  exact Nat.div_lt_self (by omega) (by omega)

/-- The character for a single decimal digit. -/
def digitChar (d : Nat) : Char := Char.ofNat (48 + d)

/-- Decimal rendering of `n` as a character list (`str(n)`). -/
def renderNat (n : Nat) : List Char := (natDigits n).map digitChar

/-- `n` rendered in decimal, left-padded with zeros to at least `w` characters
(Python `"%0{w}d" % n`). -/
def padNum (w n : Nat) : List Char :=
  List.replicate (w - (natDigits n).length) '0' ++ renderNat n

/-- Base-16 digits, most significant first, by structural recursion on a
fuel bound; any `fuel ≥ n` gives the digits of `n`. -/
def hexDigitsAux : Nat → Nat → List Nat
  | 0, n => [n]
  | f + 1, n => if n < 16 then [n] else hexDigitsAux f (n / 16) ++ [n % 16]

/-- Base-16 digits of `n`, most significant first. -/
def hexDigits (n : Nat) : List Nat := hexDigitsAux n n

/-- Lowercase character for a single hex digit (`0-9`, `a-f`). -/
def hexDigitChar (d : Nat) : Char :=
  Char.ofNat (if d < 10 then 48 + d else 87 + d)

/-- `n` rendered in lowercase hex, left-padded with zeros to at least `w`
characters; never truncates.  This is Python `"%0{w}x" % n`. -/
def pyHexPad (w n : Nat) : List Char :=
  List.replicate (w - (hexDigits n).length) '0' ++ (hexDigits n).map hexDigitChar

/-- Python `"%016x" % n`, the rendering used by `FileUtils.get_hash`. -/
def pyHex016 (n : Nat) : String := String.mk (pyHexPad 16 n)

/-- Whether a character is a lowercase hexadecimal digit. -/
def lowHex (c : Char) : Bool := ("0123456789abcdef".toList).contains c

/-- Numeric value of a most-significant-first decimal digit string
(`int(s)` on an all-digit string). -/
def digitsVal (l : List Char) : Nat :=
  l.foldl (fun a c => a * 10 + (c.toNat - 48)) 0

/-! ## `FileUtils.get_hash` (the movie hash)

Embedding of `FileUtils.get_hash` from `src/opensubtitlescom/file_utils.py`.
The Python loop reads 8 bytes at a time, unpacks them with
`struct.unpack("q", ...)` (64-bit little-endian signed), adds the value to
the accumulator and masks with `0xFFFFFFFFFFFFFFFF`.  Python `&` of a
possibly-negative int with `2^64 - 1` is exactly `Int.emod _ (2^64)`. -/

/-- The errors a `FileUtils` call can surface: the repository's own
`OpenSubtitlesFileException` (with its message), or a Python builtin
`FileNotFoundError` as raised by `Path.read_bytes` on a missing file. -/
inductive FileError where
  | OpenSubtitlesFileException (msg : String)
  | FileNotFoundError (path : String)
  deriving DecidableEq, Repr

/-- Little-endian value of one 8-byte chunk. -/
def leVal8 (b0 b1 b2 b3 b4 b5 b6 b7 : Nat) : Nat :=
  b0 + 256 * (b1 + 256 * (b2 + 256 * (b3 + 256 * (b4 + 256 * (b5 + 256 * (b6 + 256 * b7))))))

/-- `struct.unpack("q", chunk)`: the 64-bit two's-complement reading of the
little-endian chunk value. -/
def toSigned64 (n : Nat) : Int :=
  if n < 2 ^ 63 then (n : Int) else (n : Int) - 2 ^ 64

/-- One pass of the `get_hash` loop: consume the byte list 8 bytes at a time,
adding each signed chunk value and masking to 64 bits after every addition,
exactly as `hash += l_value; hash = hash & 0xFFFFFFFFFFFFFFFF`. -/
def accumChunks : Int → List Nat → Int
  | h, b0 :: b1 :: b2 :: b3 :: b4 :: b5 :: b6 :: b7 :: rest =>
      accumChunks ((h + toSigned64 (leVal8 b0 b1 b2 b3 b4 b5 b6 b7)) % (2 ^ 64 : Int)) rest
  | h, _ => h

/-- `FileUtils.get_hash`.  `none` models a path for which `exists()` is
false.  The two windows are the first 65536 bytes and the 65536 bytes from
offset `size - 65536` (the Python `max(0, size - 65536)` coincides with
truncating `Nat` subtraction); each window has exactly 65536 bytes whenever
the size guard passes, so consuming it 8 bytes at a time performs the same
`65536 // 8` iterations as the Python loop. -/
def get_hash (path : String) (file : Option (List Nat)) : Except FileError String :=
  match file with
  | none => .error (.OpenSubtitlesFileException ("File not exists: " ++ path))
  | some data =>
    let size := data.length
    if size < 65536 * 2 then .error (.OpenSubtitlesFileException "SizeError")
    else
      let h1 := accumChunks (size : Int) (data.take 65536)
      let h2 := accumChunks h1 ((data.drop (size - 65536)).take 65536)
      .ok (pyHex016 h2.toNat)

/-- The accumulation exactly as the specification words it: starting from an
accumulator, add the unsigned little-endian value of each consecutive 8-byte
chunk, reducing modulo `2^64` after each addition. -/
def specAccum : Nat → List Nat → Nat
  | h, b0 :: b1 :: b2 :: b3 :: b4 :: b5 :: b6 :: b7 :: rest =>
      specAccum ((h + leVal8 b0 b1 b2 b3 b4 b5 b6 b7) % 2 ^ 64) rest
  | h, _ => h

/-- The specification's final movie-hash value for a byte stream `data`:
accumulator initialised to the size, then the chunks of the first 65536
bytes, then the chunks of the window starting at `size - 65536`. -/
def specMovieHashVal (data : List Nat) : Nat :=
  specAccum (specAccum data.length (data.take 65536))
    ((data.drop (data.length - 65536)).take 65536)

/-! ## `FileUtils.get_md5`

The source computes `hashlib.md5(self.path.read_bytes()).hexdigest()`.
`hashlib.md5` is the MD5 message digest of RFC 1321; the definitions below
embed that algorithm over byte lists, using `Nat` arithmetic reduced
modulo `2^32`. -/

/-- The four little-endian bytes of a 32-bit word. -/
def wordLE (w : Nat) : List Nat :=
  [w % 256, w / 256 % 256, w / 65536 % 256, w / 16777216 % 256]

/-- The eight little-endian bytes of a 64-bit value. -/
def le8 (v : Nat) : List Nat :=
  [v % 256, v / 2 ^ 8 % 256, v / 2 ^ 16 % 256, v / 2 ^ 24 % 256,
   v / 2 ^ 32 % 256, v / 2 ^ 40 % 256, v / 2 ^ 48 % 256, v / 2 ^ 56 % 256]

/-- Group a byte list into 32-bit little-endian words, four bytes at a time. -/
def toWords : List Nat → List Nat
  | b0 :: b1 :: b2 :: b3 :: rest =>
      (b0 + 256 * (b1 + 256 * (b2 + 256 * b3))) :: toWords rest
  | _ => []

/-- MD5 padding: append `0x80`, zero bytes until the length is 56 mod 64,
then the original bit length as a 64-bit little-endian value. -/
def md5Pad (msg : List Nat) : List Nat :=
  msg ++ 128 :: List.replicate ((119 - msg.length % 64) % 64) 0 ++
    le8 (8 * msg.length % 2 ^ 64)

/-- 32-bit left rotation of `x` (for `x < 2^32`). -/
def rotl32 (x s : Nat) : Nat := (x * 2 ^ s + x / 2 ^ (32 - s)) % 2 ^ 32

/-- Pass `n` to the continuation `k` after reducing it to numeral form:
matching on the number makes every evaluator compute it first, so the block
iteration keeps its evaluation stack shallow.  `forceNat n k = k n`. -/
def forceNat {α : Type} (n : Nat) (k : Nat → α) : α :=
  match n with
  | 0 => k 0
  | m + 1 => k (m + 1)

/-- Round helper `FF` of RFC 1321 (round 1). -/
def FF (a b c d x s t : Nat) : Nat :=
  (b + rotl32 ((a + ((b &&& c) ||| ((b ^^^ 4294967295) &&& d)) + x + t) % 4294967296) s) % 4294967296

/-- Round helper `GG` of RFC 1321 (round 2). -/
def GG (a b c d x s t : Nat) : Nat :=
  (b + rotl32 ((a + ((d &&& b) ||| ((d ^^^ 4294967295) &&& c)) + x + t) % 4294967296) s) % 4294967296

/-- Round helper `HH` of RFC 1321 (round 3). -/
def HH (a b c d x s t : Nat) : Nat :=
  (b + rotl32 ((a + (b ^^^ c ^^^ d) + x + t) % 4294967296) s) % 4294967296

/-- Round helper `II` of RFC 1321 (round 4). -/
def II (a b c d x s t : Nat) : Nat :=
  (b + rotl32 ((a + (c ^^^ (b ||| (d ^^^ 4294967295))) + x + t) % 4294967296) s) % 4294967296

/-- The MD5 compression function on one block, its 64 rounds written out
with the RFC 1321 constants inline. -/
def md5Compress (st : Nat × Nat × Nat × Nat)
    (w0 w1 w2 w3 w4 w5 w6 w7 w8 w9 w10 w11 w12 w13 w14 w15 : Nat) :
    Nat × Nat × Nat × Nat :=
    let a := st.1
    let b := st.2.1
    let c := st.2.2.1
    let d := st.2.2.2
    let a := FF a b c d w0 7 0xd76aa478
    let d := FF d a b c w1 12 0xe8c7b756
    let c := FF c d a b w2 17 0x242070db
    let b := FF b c d a w3 22 0xc1bdceee
    let a := FF a b c d w4 7 0xf57c0faf
    let d := FF d a b c w5 12 0x4787c62a
    let c := FF c d a b w6 17 0xa8304613
    let b := FF b c d a w7 22 0xfd469501
    let a := FF a b c d w8 7 0x698098d8
    let d := FF d a b c w9 12 0x8b44f7af
    let c := FF c d a b w10 17 0xffff5bb1
    let b := FF b c d a w11 22 0x895cd7be
    let a := FF a b c d w12 7 0x6b901122
    let d := FF d a b c w13 12 0xfd987193
    let c := FF c d a b w14 17 0xa679438e
    let b := FF b c d a w15 22 0x49b40821
    let a := GG a b c d w1 5 0xf61e2562
    let d := GG d a b c w6 9 0xc040b340
    let c := GG c d a b w11 14 0x265e5a51
    let b := GG b c d a w0 20 0xe9b6c7aa
    let a := GG a b c d w5 5 0xd62f105d
    let d := GG d a b c w10 9 0x02441453
    let c := GG c d a b w15 14 0xd8a1e681
    let b := GG b c d a w4 20 0xe7d3fbc8
    let a := GG a b c d w9 5 0x21e1cde6
    let d := GG d a b c w14 9 0xc33707d6
    let c := GG c d a b w3 14 0xf4d50d87
    let b := GG b c d a w8 20 0x455a14ed
    let a := GG a b c d w13 5 0xa9e3e905
    let d := GG d a b c w2 9 0xfcefa3f8
    let c := GG c d a b w7 14 0x676f02d9
    let b := GG b c d a w12 20 0x8d2a4c8a
    let a := HH a b c d w5 4 0xfffa3942
    let d := HH d a b c w8 11 0x8771f681
    let c := HH c d a b w11 16 0x6d9d6122
    let b := HH b c d a w14 23 0xfde5380c
    let a := HH a b c d w1 4 0xa4beea44
    let d := HH d a b c w4 11 0x4bdecfa9
    let c := HH c d a b w7 16 0xf6bb4b60
    let b := HH b c d a w10 23 0xbebfbc70
    let a := HH a b c d w13 4 0x289b7ec6
    let d := HH d a b c w0 11 0xeaa127fa
    let c := HH c d a b w3 16 0xd4ef3085
    let b := HH b c d a w6 23 0x04881d05
    let a := HH a b c d w9 4 0xd9d4d039
    let d := HH d a b c w12 11 0xe6db99e5
    let c := HH c d a b w15 16 0x1fa27cf8
    let b := HH b c d a w2 23 0xc4ac5665
    let a := II a b c d w0 6 0xf4292244
    let d := II d a b c w7 10 0x432aff97
    let c := II c d a b w14 15 0xab9423a7
    let b := II b c d a w5 21 0xfc93a039
    let a := II a b c d w12 6 0x655b59c3
    let d := II d a b c w3 10 0x8f0ccc92
    let c := II c d a b w10 15 0xffeff47d
    let b := II b c d a w1 21 0x85845dd1
    let a := II a b c d w8 6 0x6fa87e4f
    let d := II d a b c w15 10 0xfe2ce6e0
    let c := II c d a b w6 15 0xa3014314
    let b := II b c d a w13 21 0x4e0811a1
    let a := II a b c d w4 6 0xf7537e82
    let d := II d a b c w11 10 0xbd3af235
    let c := II c d a b w2 15 0x2ad7d2bb
    let b := II b c d a w9 21 0xeb86d391
    let a2 := (st.1 + a) % 4294967296
    let b2 := (st.2.1 + b) % 4294967296
    let c2 := (st.2.2.1 + c) % 4294967296
    let d2 := (st.2.2.2 + d) % 4294967296
    (a2, b2, c2, d2)

/-- Fold the MD5 compression function over the 16-word blocks of the
message, forcing the state to numerals between blocks so that long messages
evaluate with a shallow stack. -/
def md5Blocks : Nat × Nat × Nat × Nat → List Nat → Nat × Nat × Nat × Nat
  | st, w0 :: w1 :: w2 :: w3 :: w4 :: w5 :: w6 :: w7 ::
        w8 :: w9 :: w10 :: w11 :: w12 :: w13 :: w14 :: w15 :: rest =>
    let s2 := md5Compress st w0 w1 w2 w3 w4 w5 w6 w7 w8 w9 w10 w11 w12 w13 w14 w15
    forceNat s2.1 (fun a => forceNat s2.2.1 (fun b => forceNat s2.2.2.1 (fun c =>
      forceNat s2.2.2.2 (fun d => md5Blocks (a, b, c, d) rest))))
  | st, _ => st

/-- The 16-byte MD5 digest of a byte list (RFC 1321). -/
def md5Bytes (msg : List Nat) : List Nat :=
  let s := md5Blocks (0x67452301, 0xefcdab89, 0x98badcfe, 0x10325476)
    (toWords (md5Pad msg))
  wordLE s.1 ++ wordLE s.2.1 ++ wordLE s.2.2.1 ++ wordLE s.2.2.2

/-- The two lowercase hex characters of one digest byte. -/
def byteHexChars (b : Nat) : List Char :=
  [hexDigitChar (b / 16 % 16), hexDigitChar (b % 16)]

/-- `hashlib.md5(msg).hexdigest()`: the digest as 32 lowercase hex characters. -/
def md5hex (msg : List Nat) : String :=
  String.mk (List.foldr (fun b acc => byteHexChars b ++ acc) [] (md5Bytes msg))

/-- `FileUtils.get_md5`.  `Path.read_bytes` raises the builtin
`FileNotFoundError` when the path does not exist; no size check and no
component exception is involved on any path. -/
def get_md5 (path : String) (file : Option (List Nat)) : Except FileError String :=
  match file with
  | none => .error (.FileNotFoundError path)
  | some data => .ok (md5hex data)

/-! ## The SRT subtitle codec

`OpenSubtitles.parse_srt` calls `parse` from the repository module
`opensubtitlescom/srt.py`, which is not part of the sources available here;
the codec below is therefore modelled from the specification (its grammar,
parsing policy, timestamp conversion and serializer rules), working over
the lines of the input text. -/

/-- One timed caption entry.  `stop` models the cue's `end` field. -/
structure Cue where
  index : Nat
  start : Nat
  stop : Nat
  text : List String
  deriving DecidableEq, Repr

/-- The parse failures of the codec, each carrying the 1-based source line
number for diagnostics. -/
inductive FormatError where
  | MissingIndex (line : Nat)
  | BadTimeRange (line : Nat)
  | UnexpectedEof (line : Nat)
  deriving DecidableEq, Repr

/-- Split a character list at every occurrence of `sep`; the result always
has one more entry than there are separators. -/
def splitOnChar (sep : Char) : List Char → List (List Char)
  | [] => [[]]
  | c :: rest =>
    match splitOnChar sep rest with
    | [] => [[c]]
    | h :: t => if c = sep then [] :: h :: t else (c :: h) :: t

/-- Split a line at the first occurrence of the `-->` token. -/
def splitArrow : List Char → Option (List Char × List Char)
  | '-' :: '-' :: '>' :: rest => some ([], rest)
  | c :: rest => (splitArrow rest).map (fun p => (c :: p.1, p.2))
  | [] => none

/-- Drop leading whitespace. -/
def dropWS (l : List Char) : List Char := l.dropWhile Char.isWhitespace

/-- Remove leading and trailing whitespace (`str.strip`). -/
def trimChars (l : List Char) : List Char := (dropWS (dropWS l.reverse).reverse)

/-- Whether a line consists only of whitespace (the blank lines that end a
cue's text body). -/
def isBlankL (l : List Char) : Bool := l.all Char.isWhitespace

/-- Modelled from the spec: the index line is one or more digits with
surrounding whitespace ignored. -/
def parseIndexL (l : List Char) : Option Nat :=
  let t := trimChars l
  if t.isEmpty then none
  else if t.all Char.isDigit then some (digitsVal t) else none

/-- Modelled from the spec: `HH:MM:SS,mmm` with hours two or more digits,
minutes and seconds exactly two, milliseconds exactly three, converted to
`((H * 60 + M) * 60 + S) * 1000 + mmm` with no range validation. -/
def parseTS (l : List Char) : Option Nat :=
  match splitOnChar ':' l with
  | [h, m, sms] =>
    match splitOnChar ',' sms with
    | [s, ms] =>
      if 2 ≤ h.length ∧ h.all Char.isDigit ∧
          m.length = 2 ∧ m.all Char.isDigit ∧
          s.length = 2 ∧ s.all Char.isDigit ∧
          ms.length = 3 ∧ ms.all Char.isDigit then
        some (((digitsVal h * 60 + digitsVal m) * 60 + digitsVal s) * 1000 + digitsVal ms)
      else none
    | _ => none
  | _ => none

/-- Modelled from the spec: the time line is split into two valid timestamps
by the `-->` token. -/
def parseTimeLineL (l : List Char) : Option (Nat × Nat) :=
  match splitArrow l with
  | none => none
  | some (a, b) =>
    match parseTS (trimChars a), parseTS (trimChars b) with
    | some s, some e => some (s, e)
    | _, _ => none

/-- Modelled from the spec: parse the lines of an SRT document into cues,
`ln` being the 1-based number of the first line.  Blank lines between cues
are skipped; a cue is an index line, a time line, and one or more non-blank
text lines taken verbatim; a malformed cue fails the whole parse with the
first error (fail-fast); a final cue may end at end-of-input without a
trailing blank line.  The recursion is driven by `fuel`, decremented once
per step while each step consumes at least one line, so any
`fuel ≥ lines.length` gives the same result; the zero-fuel case is
unreachable for such fuel. -/
def parseCues (fuel : Nat) (lines : List (List Char)) (ln : Nat) :
    Except FormatError (List Cue) :=
  match fuel, lines with
  | _, [] => .ok []
  | 0, _ :: _ => .error (.UnexpectedEof ln)
  | f + 1, l :: rest =>
    if isBlankL l then parseCues f rest (ln + 1)
    else
      match parseIndexL l with
      | none => .error (.MissingIndex ln)
      | some idx =>
        match rest with
        | [] => .error (.UnexpectedEof ln)
        | t :: rest2 =>
          match parseTimeLineL t with
          | none => .error (.BadTimeRange (ln + 1))
          | some se =>
            let body := rest2.takeWhile (fun x => !isBlankL x)
            let rest3 := rest2.dropWhile (fun x => !isBlankL x)
            if body.isEmpty then .error (.UnexpectedEof (ln + 2))
            else
              match parseCues f rest3 (ln + 2 + body.length) with
              | .error e => .error e
              | .ok cues =>
                .ok ({ index := idx, start := se.1, stop := se.2,
                       text := body.map (fun b => String.mk b) } :: cues)

/-- Remove a trailing carriage return (tolerance for CRLF terminators). -/
def dropLastCR (l : List Char) : List Char :=
  if l.getLast? = some '\r' then l.dropLast else l

/-- Modelled from the spec: full document parse.  A leading byte-order
marker is tolerated, the text is split into lines at newlines, and each
line may end in a carriage return. -/
def parse (s : String) : Except FormatError (List Cue) :=
  let cs := s.toList
  let cs := if cs.head? = some '﻿' then cs.tail else cs
  let lines := (splitOnChar '\n' cs).map dropLastCR
  parseCues lines.length lines 1

/-- `OpenSubtitles.parse_srt`: parse and materialize the whole cue list. -/
def parse_srt (content : String) : Except FormatError (List Cue) :=
  parse content

/-- Timestamp rendering `HH:MM:SS,mmm`: hours zero-padded to at least two
digits, minutes and seconds to exactly two, milliseconds to exactly three. -/
def tsChars (ms : Nat) : List Char :=
  padNum 2 (ms / 3600000) ++ ':' :: padNum 2 (ms / 60000 % 60) ++
    ':' :: padNum 2 (ms / 1000 % 60) ++ ',' :: padNum 3 (ms % 1000)

/-- Join lines with single newlines (no trailing newline). -/
def joinLines : List (List Char) → List Char
  | [] => []
  | [t] => t
  | t :: ts => t ++ '\n' :: joinLines ts

/-- The serialized time line of a cue. -/
def timeLineChars (c : Cue) : List Char :=
  tsChars c.start ++ ' ' :: '-' :: '-' :: '>' :: ' ' :: tsChars c.stop

/-- The characters of one serialized cue, rendered with index `n`. -/
def cueBlock (n : Nat) (c : Cue) : List Char :=
  renderNat n ++ '\n' :: timeLineChars c ++
    '\n' :: joinLines (c.text.map String.toList)

/-- Serialize the cues, renumbering indices sequentially from `n` and
joining consecutive cues with exactly one blank line. -/
def serializeFrom : Nat → List Cue → List Char
  | _, [] => []
  | n, [c] => cueBlock n c
  | n, c :: rest => cueBlock n c ++ '\n' :: '\n' :: serializeFrom (n + 1) rest

/-- Modelled from the spec: `serialize`, with a terminating newline after
the final cue. -/
def serialize (cues : List Cue) : String :=
  String.mk (serializeFrom 1 cues ++ ['\n'])

/-- The cues with their `index` fields renumbered sequentially from `n`. -/
def renumber (n : Nat) : List Cue → List Cue
  | [] => []
  | c :: rest => { c with index := n } :: renumber (n + 1) rest

/-- The three-plus lines a serialized cue contributes to the document. -/
def cueLines (n : Nat) (c : Cue) : List (List Char) :=
  renderNat n :: timeLineChars c :: c.text.map String.toList

/-- The line sequence of a serialized document: each cue's lines followed by
one blank separator line (the final one produced by the terminating
newline). -/
def linesOf (n : Nat) : List Cue → List (List Char)
  | [] => []
  | c :: rest => cueLines n c ++ [] :: linesOf (n + 1) rest

/-- A text line that survives a serialize/parse round trip: not blank (it
would end the text body early) and free of line terminators. -/
def validTextLine (s : String) : Bool :=
  !isBlankL s.toList && s.toList.all (fun c => c ≠ '\n' && c ≠ '\r')

/-! ## `OpenSubtitles.str_to_bytes` and `OpenSubtitles.download`

Small dynamically-typed helpers of `src/opensubtitlescom/opensubtitles.py`,
modelled over a value type mirroring the runtime types that can reach
them. -/

/-- A Python runtime value reaching `str_to_bytes`: a `str`, a `bytes`, or
`None`. -/
inductive PyValue where
  | str (s : String)
  | bytes (b : List Nat)
  | pyNone
  deriving DecidableEq, Repr

/-- The exception a `str_to_bytes` call can raise. -/
inductive PyError where
  | AttributeError (msg : String)
  deriving DecidableEq, Repr

/-- Python attribute dispatch for `.decode("utf-8")`: only `bytes` has a
`decode` method (producing a `str`); calling it on any other value raises
`AttributeError`.  The decoded text is represented abstractly by a function
argument since its content is irrelevant here. -/
def decodeUtf8 (utf8 : List Nat → String) : PyValue → Except PyError PyValue
  | .bytes b => .ok (.str (utf8 b))
  | .str _ => .error (.AttributeError "str object has no attribute decode")
  | .pyNone => .error (.AttributeError "NoneType object has no attribute decode")

/-- `OpenSubtitles.str_to_bytes`: `if isinstance(content, str): content =
content.decode("utf-8")`, then return `content`.  The `isinstance` guard
routes every `str` into the `.decode` call, which `str` does not have. -/
def str_to_bytes (utf8 : List Nat → String) (content : PyValue) :
    Except PyError PyValue :=
  match content with
  | .str s =>
    match decodeUtf8 utf8 (.str s) with
    | .ok v => .ok v
    | .error e => .error e
  | v => .ok v

/-- The argument of `OpenSubtitles.download`: a bare file id string or a
`Subtitle` record carrying one. -/
inductive FileIdArg where
  | fileId (s : String)
  | subtitle (file_id : String)
  deriving DecidableEq, Repr

/-- `subtitle_id = file_id.file_id if isinstance(file_id, Subtitle) else
file_id`. -/
def resolveFileId : FileIdArg → String
  | .fileId s => s
  | .subtitle s => s

/-- The observable outcome of `OpenSubtitles.download`: either the method
returns `None` early without sending anything, or it sends the download
request for the resolved file id. -/
inductive DownloadOutcome where
  | returnedNone
  | sentRequest (file_id : String)
  deriving DecidableEq, Repr

/-- `OpenSubtitles.download`: an empty (falsy) resolved subtitle id returns
`None` before anything is sent; then, if the stored
`user_downloads_remaining` is `<= 0`, `None` is returned before anything is
sent; otherwise the download request is sent. -/
def download (file_id : FileIdArg) (user_downloads_remaining : Int) :
    DownloadOutcome :=
  let subtitle_id := resolveFileId file_id
  if subtitle_id = "" then .returnedNone
  else if user_downloads_remaining ≤ 0 then .returnedNone
  else .sentRequest subtitle_id

/-- Decidable equality for `Except` results. -/
instance {ε α : Type} [DecidableEq ε] [DecidableEq α] : DecidableEq (Except ε α) :=
  fun a b =>
  match a, b with
  | .error e, .error f =>
    if h : e = f then .isTrue (by rw [h]) else .isFalse (fun he => by cases he; exact h rfl)
  | .ok x, .ok y =>
    if h : x = y then .isTrue (by rw [h]) else .isFalse (fun he => by cases he; exact h rfl)
  | .error _, .ok _ => .isFalse (fun he => Except.noConfusion he)
  | .ok _, .error _ => .isFalse (fun he => Except.noConfusion he)

/-- Whether a `FileError` is the component's own exception
(`OpenSubtitlesFileException`) rather than a Python builtin. -/
def isComponentError : FileError → Bool
  | .OpenSubtitlesFileException _ => true
  | .FileNotFoundError _ => false

/-- Whether a `PyValue` is not a Python `str`. -/
def nonStr : PyValue → Bool
  | .str _ => false
  | _ => true

/-- One MD5 compression step on an all-zero 16-word block. -/
def zstep (st : Nat × Nat × Nat × Nat) : Nat × Nat × Nat × Nat :=
  md5Compress st 0 0 0 0 0 0 0 0 0 0 0 0 0 0 0 0

/-- `n` MD5 compression steps on all-zero blocks, forcing the state to
numerals between steps so that long iterations evaluate with a shallow
stack. -/
def iterZero : Nat → Nat × Nat × Nat × Nat → Nat × Nat × Nat × Nat
  | 0, st => st
  | n + 1, st =>
    forceNat st.1 (fun a => forceNat st.2.1 (fun b => forceNat st.2.2.1 (fun c =>
      forceNat st.2.2.2 (fun d => iterZero n (zstep (a, b, c, d))))))

/-! ## Theorems -/

/-- C3 counterexample: the undersized-file failure of `get_hash` is the
fixed exception message `"SizeError"`; files of different sizes (100 and 50
bytes) produce identical errors, so the error does not carry the actual
size. -/
theorem tooSmall_error_carries_no_size :
    get_hash "a.avi" (some (List.replicate 100 0)) =
      .error (.OpenSubtitlesFileException "SizeError") ∧
    get_hash "a.avi" (some (List.replicate 50 0)) =
      .error (.OpenSubtitlesFileException "SizeError") ∧
    (List.replicate 100 (0 : Nat)).length ≠ (List.replicate 50 (0 : Nat)).length := by
  refine ⟨rfl, rfl, by simp⟩

/-- C3 (amended): for every existing file smaller than 131072 bytes,
`get_hash` fails with the component's exception with the fixed message
`"SizeError"` (not carrying the actual size), and no fingerprint string is
produced. -/
theorem movieHash_small_file_size_error (path : String) (data : List Nat)
    (h : data.length < 131072) :
    get_hash path (some data) = .error (.OpenSubtitlesFileException "SizeError") := by
  simp only [get_hash]
  rw [if_pos (by omega)]

/-- C3 witness: the amended theorem at a concrete 100-byte file. -/
theorem movieHash_small_file_size_error_witness :
    get_hash "a.avi" (some (List.replicate 100 0)) =
      .error (.OpenSubtitlesFileException "SizeError") :=
  movieHash_small_file_size_error "a.avi" (List.replicate 100 0) (by simp)

/-- C7 counterexample: on a missing path, `get_hash` raises the component's
`OpenSubtitlesFileException`, but `get_md5` surfaces the Python builtin
`FileNotFoundError`, which is not part of the component's error taxonomy —
so `contentHash` does not fail with the same component error taxonomy. -/
theorem contentHash_error_taxonomy_differs :
    get_hash "gone.srt" none =
      .error (.OpenSubtitlesFileException "File not exists: gone.srt") ∧
    get_md5 "gone.srt" none = .error (.FileNotFoundError "gone.srt") ∧
    isComponentError (.FileNotFoundError "gone.srt") = false ∧
    isComponentError (.OpenSubtitlesFileException "File not exists: gone.srt") = true := by
  exact ⟨rfl, rfl, rfl, rfl⟩

/-- C7 (amended): for every path that cannot be opened, `get_hash` fails
with the component's exception (message `"File not exists: <path>"`), while
`get_md5` fails with the Python builtin `FileNotFoundError`, not with the
component's exception. -/
theorem fingerprint_notfound_errors (path : String) :
    get_hash path none =
      .error (.OpenSubtitlesFileException ("File not exists: " ++ path)) ∧
    get_md5 path none = .error (.FileNotFoundError path) ∧
    isComponentError (.FileNotFoundError path) = false :=
  ⟨rfl, rfl, rfl⟩

/-- C4: parsing the two-cue example text yields exactly the two cues of the
specification, the final cue being yielded even without a trailing blank
line. -/
theorem parse_srt_two_cue_example :
    parse_srt "1\n00:00:10,500 --> 00:00:14,000\nSubtitle Line 1\n\n2\n00:00:15,000 --> 00:00:18,500\nSubtitle Line 2\n" =
      .ok [{ index := 1, start := 10500, stop := 14000, text := ["Subtitle Line 1"] },
           { index := 2, start := 15000, stop := 18500, text := ["Subtitle Line 2"] }] := by
  decide

/-- C8: a cue whose time line cannot be split into two valid timestamps by
the `-->` token fails the parse with `BadTimeRange` carrying the 1-based
line number of the time line, here line 2. -/
theorem parse_srt_bad_time_line :
    parse_srt "1\nbad line\nText\n\n" = .error (.BadTimeRange 2) := by
  decide

/-- C9: `str_to_bytes` raises `AttributeError` on every `str` input (the
`isinstance` guard routes `str` into `.decode`, which `str` lacks), and
returns every non-`str` input unchanged. -/
theorem str_to_bytes_raises_on_str (utf8 : List Nat → String) (s : String)
    (v : PyValue) (hv : nonStr v = true) :
    str_to_bytes utf8 (.str s) =
      .error (.AttributeError "str object has no attribute decode") ∧
    str_to_bytes utf8 v = .ok v := by
  constructor
  · rfl
  · cases v with
    | str t => simp [nonStr] at hv
    | bytes b => rfl
    | pyNone => rfl

/-- C9 witness: the theorem at a concrete string and a concrete `bytes`
value. -/
theorem str_to_bytes_raises_on_str_witness :
    str_to_bytes (fun _ => "") (.str "hi") =
      .error (.AttributeError "str object has no attribute decode") ∧
    str_to_bytes (fun _ => "") (.bytes [104, 105]) = .ok (.bytes [104, 105]) :=
  str_to_bytes_raises_on_str (fun _ => "") "hi" (.bytes [104, 105]) (by decide)

/-- C10: `download` returns `None` — without raising and without sending
any download request — exactly when the resolved subtitle file id is falsy
(empty) or the stored `user_downloads_remaining` counter is at most 0. -/
theorem download_returns_none_iff (file_id : FileIdArg) (remaining : Int) :
    download file_id remaining = .returnedNone ↔
      (resolveFileId file_id = "" ∨ remaining ≤ 0) := by
  unfold download
  by_cases h1 : resolveFileId file_id = "" <;>
    by_cases h2 : remaining ≤ 0 <;> simp [h1, h2]

/-! ### The movie hash: helper lemmas and C1, C2 -/

lemma step_cast (n v : Nat) :
    ((n : Int) + toSigned64 v) % (2 ^ 64 : Int) = (((n + v) % 2 ^ 64 : Nat) : Int) := by
  unfold toSigned64
  split
  · rw [Int.natCast_mod]
    push_cast
    ring_nf
  · have h : (n : Int) + ((v : Int) - 2 ^ 64) = ((n : Int) + (v : Int)) - 2 ^ 64 := by ring
    rw [h, Int.sub_emod, Int.emod_self, sub_zero, Int.emod_emod_of_dvd _ (dvd_refl _),
      Int.natCast_mod]
    push_cast
    ring_nf

/-- The signed loop of the source and the unsigned accumulation of the
specification agree: the two chunk readings differ by a multiple of `2^64`,
which the masking cancels. -/
lemma accumChunks_eq_specAccum (n : Nat) (l : List Nat) :
    accumChunks (n : Int) l = ((specAccum n l : Nat) : Int) := by
  induction n, l using specAccum.induct with
  | case1 n b0 b1 b2 b3 b4 b5 b6 b7 rest ih =>
    rw [accumChunks, specAccum, step_cast]
    exact ih
  | case2 t n hne =>
    rcases t with _ | ⟨b0, _ | ⟨b1, _ | ⟨b2, _ | ⟨b3, _ | ⟨b4, _ | ⟨b5, _ | ⟨b6, _ | ⟨b7, rest⟩⟩⟩⟩⟩⟩⟩⟩ <;>
      first
        | rfl
        | exact (hne _ _ _ _ _ _ _ _ _ rfl).elim

lemma specAccum_short (n : Nat) (l : List Nat) (hl : l.length < 8) : specAccum n l = n := by
  rcases l with _ | ⟨b0, _ | ⟨b1, _ | ⟨b2, _ | ⟨b3, _ | ⟨b4, _ | ⟨b5, _ | ⟨b6, _ | ⟨b7, rest⟩⟩⟩⟩⟩⟩⟩⟩ <;>
    first
      | rfl
      | (exfalso; simp at hl; omega)

lemma specAccum_lt (n : Nat) (l : List Nat) (h8 : 8 ≤ l.length) :
    specAccum n l < 2 ^ 64 := by
  induction n, l using specAccum.induct with
  | case1 n b0 b1 b2 b3 b4 b5 b6 b7 rest ih =>
    rw [specAccum]
    by_cases hr : 8 ≤ rest.length
    · exact ih hr
    · rw [specAccum_short _ _ (by omega)]
      exact Nat.mod_lt _ (by norm_num)
  | case2 t n hne =>
    exfalso
    rcases t with _ | ⟨b0, _ | ⟨b1, _ | ⟨b2, _ | ⟨b3, _ | ⟨b4, _ | ⟨b5, _ | ⟨b6, _ | ⟨b7, rest⟩⟩⟩⟩⟩⟩⟩⟩ <;>
      first
        | exact hne _ _ _ _ _ _ _ _ _ rfl
        | (simp at h8)

lemma hexDigitsAux_lt : ∀ (f n : Nat), n ≤ f → ∀ d ∈ hexDigitsAux f n, d < 16 := by
  intro f
  induction f with
  | zero =>
    intro n hn d hd
    interval_cases n
    simp [hexDigitsAux] at hd
    omega
  | succ f ih =>
    intro n hn d hd
    rw [hexDigitsAux] at hd
    split at hd
    · simp at hd
      omega
    · rcases List.mem_append.mp hd with hd1 | hd2
      · exact ih (n / 16) (by omega) d hd1
      · simp at hd2
        subst hd2
        exact Nat.mod_lt _ (by norm_num)

lemma hexDigitsAux_length_le : ∀ (f k n : Nat), 1 ≤ k → n < 16 ^ k → n ≤ f →
    (hexDigitsAux f n).length ≤ k := by
  intro f
  induction f with
  | zero =>
    intro k n h1 _ _
    simpa [hexDigitsAux] using h1
  | succ f ih =>
    intro k n h1 hn hf
    rw [hexDigitsAux]
    split
    · simpa using h1
    · rename_i hge
      rcases k with _ | k
      · omega
      rcases k with _ | k
      · exfalso
        rw [pow_one] at hn
        omega
      have hdiv : n / 16 < 16 ^ (k + 1) := by
        rw [Nat.div_lt_iff_lt_mul (by norm_num)]
        calc n < 16 ^ (k + 2) := hn
          _ = 16 ^ (k + 1) * 16 := by ring
      have := ih (k + 1) (n / 16) (by omega) hdiv (by omega)
      simp only [List.length_append, List.length_cons, List.length_nil]
      omega

lemma hexDigits_lt (n : Nat) : ∀ d ∈ hexDigits n, d < 16 :=
  hexDigitsAux_lt n n le_rfl

lemma hexDigits_length_le (k n : Nat) (h1 : 1 ≤ k) (hn : n < 16 ^ k) :
    (hexDigits n).length ≤ k :=
  hexDigitsAux_length_le n k n h1 hn le_rfl

lemma hexDigitChar_low : ∀ d, d < 16 → lowHex (hexDigitChar d) = true := by decide

lemma pyHexPad_length (w n : Nat) (hw : 1 ≤ w) (hn : n < 16 ^ w) :
    (pyHexPad w n).length = w := by
  have := hexDigits_length_le w n hw hn
  simp only [pyHexPad, List.length_append, List.length_replicate, List.length_map]
  omega

lemma pyHexPad_lowHex (w n : Nat) : ∀ c ∈ pyHexPad w n, lowHex c = true := by
  intro c hc
  rcases List.mem_append.mp hc with hc1 | hc2
  · rw [List.eq_of_mem_replicate hc1]
    decide
  · rcases List.mem_map.mp hc2 with ⟨d, hd, rfl⟩
    exact hexDigitChar_low d (hexDigits_lt n d hd)

lemma pyHex016_toList (X : Nat) : (pyHex016 X).toList = pyHexPad 16 X := rfl

lemma pyHex016_all_lowHex (X : Nat) : (pyHex016 X).toList.all lowHex = true := by
  rw [pyHex016_toList]
  exact List.all_eq_true.mpr (fun c hc => pyHexPad_lowHex 16 X c hc)

lemma pyHex016_length (X : Nat) (h : X < 16 ^ 16) : (pyHex016 X).length = 16 := by
  have e : (pyHex016 X).length = (pyHexPad 16 X).length := rfl
  rw [e, pyHexPad_length 16 X (by norm_num) h]

/-- C1: for every file of at least 131072 bytes, `get_hash` returns the
16-character lowercase zero-padded hexadecimal rendering of the 64-bit
value obtained by initialising the accumulator to the file size and adding,
modulo `2^64`, the 8-byte little-endian chunks of the first 65536 bytes and
then those of the window starting at `size - 65536`
(`specMovieHashVal`). -/
theorem movieHash_spec_conformance (path : String) (data : List Nat)
    (h : 131072 ≤ data.length) :
    get_hash path (some data) = .ok (pyHex016 (specMovieHashVal data)) ∧
    (pyHex016 (specMovieHashVal data)).length = 16 ∧
    (pyHex016 (specMovieHashVal data)).toList.all lowHex = true := by
  have hw2 : ((data.drop (data.length - 65536)).take 65536).length = 65536 := by
    simp only [List.length_take, List.length_drop]
    omega
  have hlt : specMovieHashVal data < 2 ^ 64 := by
    apply specAccum_lt
    rw [hw2]
    norm_num
  refine ⟨?_, ?_, ?_⟩
  · simp only [get_hash]
    rw [if_neg (by omega)]
    rw [accumChunks_eq_specAccum, accumChunks_eq_specAccum, Int.toNat_natCast]
    rfl
  · exact pyHex016_length _ (by calc specMovieHashVal data < 2 ^ 64 := hlt
      _ = 16 ^ 16 := by norm_num)
  · exact pyHex016_all_lowHex _

/-- C1 witness: the theorem applied to the 131072-byte all-zero file. -/
theorem movieHash_spec_conformance_witness :
    get_hash "movie.mp4" (some (List.replicate 131072 0)) =
      .ok (pyHex016 (specMovieHashVal (List.replicate 131072 0))) ∧
    (pyHex016 (specMovieHashVal (List.replicate 131072 0))).length = 16 ∧
    (pyHex016 (specMovieHashVal (List.replicate 131072 0))).toList.all lowHex = true :=
  movieHash_spec_conformance "movie.mp4" (List.replicate 131072 0)
    (by rw [List.length_replicate])

lemma specAccum_zeros (k : Nat) : ∀ n, n < 2 ^ 64 →
    specAccum n (List.replicate (8 * k) 0) = n := by
  induction k with
  | zero => intro n _; rfl
  | succ k ih =>
    intro n hn
    have e : List.replicate (8 * (k + 1)) (0 : Nat) =
        0 :: 0 :: 0 :: 0 :: 0 :: 0 :: 0 :: 0 :: List.replicate (8 * k) 0 := by
      rw [show 8 * (k + 1) = 8 + 8 * k by ring, List.replicate_add]
      rfl
    have hz : leVal8 0 0 0 0 0 0 0 0 = 0 := rfl
    rw [e, specAccum, hz, Nat.add_zero, Nat.mod_eq_of_lt hn]
    exact ih n hn

/-- C2: on the 131072-byte all-zero file, `get_hash` returns exactly the
string `"0000000000020000"` — the file size `0x20000` alone, since every
8-byte chunk contributes zero — matching the value asserted by
`test_get_hash`. -/
theorem movieHash_zero_131072 :
    get_hash "movie.mp4" (some (List.replicate 131072 0)) = .ok "0000000000020000" := by
  have htake : (List.replicate 131072 (0 : Nat)).take 65536 = List.replicate (8 * 8192) 0 := by
    rw [List.take_replicate]
    norm_num
  have hdrop : ((List.replicate 131072 (0 : Nat)).drop
      ((List.replicate 131072 (0 : Nat)).length - 65536)).take 65536 =
      List.replicate (8 * 8192) 0 := by
    rw [List.length_replicate, List.drop_replicate, List.take_replicate]
    norm_num
  simp only [get_hash]
  rw [if_neg (by rw [List.length_replicate]; omega)]
  rw [accumChunks_eq_specAccum, accumChunks_eq_specAccum, Int.toNat_natCast]
  rw [hdrop, htake, List.length_replicate]
  rw [specAccum_zeros 8192 131072 (by norm_num),
    specAccum_zeros 8192 131072 (by norm_num)]
  rfl


/-! ### MD5: helper lemmas and C6 -/

lemma forceNat_eq {α : Type} (n : Nat) (k : Nat → α) : forceNat n k = k n := by
  cases n <;> rfl

lemma md5Blocks_nil (st : Nat × Nat × Nat × Nat) : md5Blocks st [] = st := rfl

lemma md5Blocks_step (st : Nat × Nat × Nat × Nat)
    (w0 w1 w2 w3 w4 w5 w6 w7 w8 w9 w10 w11 w12 w13 w14 w15 : Nat) (rest : List Nat) :
    md5Blocks st (w0 :: w1 :: w2 :: w3 :: w4 :: w5 :: w6 :: w7 ::
        w8 :: w9 :: w10 :: w11 :: w12 :: w13 :: w14 :: w15 :: rest) =
      md5Blocks (md5Compress st w0 w1 w2 w3 w4 w5 w6 w7 w8 w9 w10 w11 w12 w13 w14 w15) rest := by
  simp only [md5Blocks, forceNat_eq]

lemma iterZero_succ (n : Nat) (st : Nat × Nat × Nat × Nat) :
    iterZero (n + 1) st = iterZero n (zstep st) := by
  simp [iterZero, forceNat_eq]

lemma iterZero_add (m n : Nat) (st : Nat × Nat × Nat × Nat) :
    iterZero (m + n) st = iterZero n (iterZero m st) := by
  induction m generalizing st with
  | zero => rw [Nat.zero_add]; rfl
  | succ m ih =>
    rw [show m + 1 + n = (m + n) + 1 by omega, iterZero_succ, ih, iterZero_succ]

lemma md5Blocks_zero_block (st : Nat × Nat × Nat × Nat) (rest : List Nat) :
    md5Blocks st (List.replicate 16 0 ++ rest) = md5Blocks (zstep st) rest := by
  have e : List.replicate 16 (0 : Nat) =
      0 :: 0 :: 0 :: 0 :: 0 :: 0 :: 0 :: 0 :: 0 :: 0 :: 0 :: 0 :: 0 :: 0 :: 0 :: 0 :: [] := rfl
  rw [e]
  simp only [List.cons_append, List.nil_append]
  rw [md5Blocks_step, zstep]

lemma md5Blocks_zero_chunks (n : Nat) : ∀ (st : Nat × Nat × Nat × Nat) (rest : List Nat),
    md5Blocks st (List.replicate (16 * n) 0 ++ rest) = md5Blocks (iterZero n st) rest := by
  induction n with
  | zero => intro st rest; rfl
  | succ n ih =>
    intro st rest
    rw [show 16 * (n + 1) = 16 + 16 * n by ring, List.replicate_add, List.append_assoc,
      md5Blocks_zero_block, ih, iterZero_succ]

lemma toWords_zero_prefix (n : Nat) : ∀ (rest : List Nat),
    toWords (List.replicate (4 * n) 0 ++ rest) = List.replicate n 0 ++ toWords rest := by
  induction n with
  | zero => intro rest; rfl
  | succ n ih =>
    intro rest
    rw [show 4 * (n + 1) = 4 + 4 * n by ring, List.replicate_add, List.append_assoc]
    have e : List.replicate 4 (0 : Nat) = 0 :: 0 :: 0 :: 0 :: [] := rfl
    rw [e]
    simp only [List.cons_append, List.nil_append]
    rw [toWords, ih rest, List.replicate_succ, List.cons_append]

lemma pad_zero_words :
    toWords (md5Pad (List.replicate 131072 0)) =
      List.replicate (16 * 2048) 0 ++
        [128, 0, 0, 0, 0, 0, 0, 0, 0, 0, 0, 0, 0, 0, 1048576, 0] := by
  rw [md5Pad]
  simp only [List.length_replicate]
  norm_num
  rw [show (131072 : Nat) = 4 * 32768 from rfl, toWords_zero_prefix]
  rw [show (32768 : Nat) = 16 * 2048 from rfl]
  congr 1

set_option maxRecDepth 2000000
set_option maxHeartbeats 16000000
lemma iterZero_c1 : iterZero 256 (1732584193, 4023233417, 2562383102, 271733878) = (1835701105, 2605099988, 1195402025, 2032289736) := by decide

lemma iterZero_c2 : iterZero 256 (1835701105, 2605099988, 1195402025, 2032289736) = (135996315, 2718866876, 3687232452, 1514845400) := by decide

lemma iterZero_c3 : iterZero 256 (135996315, 2718866876, 3687232452, 1514845400) = (2113404378, 1498597083, 2515859616, 2234200830) := by decide

lemma iterZero_c4 : iterZero 256 (2113404378, 1498597083, 2515859616, 2234200830) = (1162871931, 2834778815, 2946689860, 2529433779) := by decide

lemma iterZero_c5 : iterZero 256 (1162871931, 2834778815, 2946689860, 2529433779) = (1406986005, 3499670037, 3449887339, 378951157) := by decide

lemma iterZero_c6 : iterZero 256 (1406986005, 3499670037, 3449887339, 378951157) = (3339294014, 3007424079, 2163633278, 4057640989) := by decide

lemma iterZero_c7 : iterZero 256 (3339294014, 3007424079, 2163633278, 4057640989) = (1598020657, 325694492, 4069675117, 506681774) := by decide

lemma iterZero_c8 : iterZero 256 (1598020657, 325694492, 4069675117, 506681774) = (1896444345, 1224920950, 2232332450, 3766973104) := by decide

lemma iter2048 : iterZero 2048 (1732584193, 4023233417, 2562383102, 271733878) = (1896444345, 1224920950, 2232332450, 3766973104) := by
  rw [show (2048 : Nat) = 256 + 1792 from rfl, iterZero_add, iterZero_c1]
  rw [show (1792 : Nat) = 256 + 1536 from rfl, iterZero_add, iterZero_c2]
  rw [show (1536 : Nat) = 256 + 1280 from rfl, iterZero_add, iterZero_c3]
  rw [show (1280 : Nat) = 256 + 1024 from rfl, iterZero_add, iterZero_c4]
  rw [show (1024 : Nat) = 256 + 768 from rfl, iterZero_add, iterZero_c5]
  rw [show (768 : Nat) = 256 + 512 from rfl, iterZero_add, iterZero_c6]
  rw [show (512 : Nat) = 256 + 256 from rfl, iterZero_add, iterZero_c7]
  exact iterZero_c8

lemma md5_final_state :
    md5Blocks (1732584193, 4023233417, 2562383102, 271733878)
      (toWords (md5Pad (List.replicate 131072 0))) = (2867395341, 783622220, 3421735707, 2482093420) := by
  rw [pad_zero_words, md5Blocks_zero_chunks, iter2048]
  decide

lemma hexChars_length (l : List Nat) :
    (List.foldr (fun b acc => byteHexChars b ++ acc) [] l).length = 2 * l.length := by
  induction l with
  | nil => rfl
  | cons b t ih =>
    rw [List.foldr_cons, List.length_append, ih]
    simp only [byteHexChars, List.length_cons, List.length_nil]
    omega

lemma hexChars_low (l : List Nat) :
    (List.foldr (fun b acc => byteHexChars b ++ acc) [] l).all lowHex = true := by
  induction l with
  | nil => rfl
  | cons b t ih =>
    have h1 := hexDigitChar_low (b / 16 % 16) (Nat.mod_lt _ (by norm_num))
    have h2 := hexDigitChar_low (b % 16) (Nat.mod_lt _ (by norm_num))
    rw [List.foldr_cons, List.all_append, ih, Bool.and_true]
    simp only [byteHexChars, List.all_cons, List.all_nil, h1, h2, Bool.and_true,
      Bool.true_and]

lemma md5Bytes_length (msg : List Nat) : (md5Bytes msg).length = 16 := by
  simp [md5Bytes, wordLE]

lemma md5hex_length (msg : List Nat) : (md5hex msg).length = 32 := by
  have e : (md5hex msg).length =
      (List.foldr (fun b acc => byteHexChars b ++ acc) [] (md5Bytes msg)).length := rfl
  rw [e, hexChars_length, md5Bytes_length]

lemma md5hex_low (msg : List Nat) : (md5hex msg).toList.all lowHex = true := by
  have e : (md5hex msg).toList =
      List.foldr (fun b acc => byteHexChars b ++ acc) [] (md5Bytes msg) := rfl
  rw [e]
  exact hexChars_low _

/-- C6: `get_md5` returns the RFC 1321 MD5 digest of the whole byte stream
as a 32-character lowercase hexadecimal string with no minimum-size
precondition, and on 131072 zero bytes the digest is
`"0dfbe8aa4c20b52e1b8bf3cb6cbdf193"`. -/
theorem contentHash_md5 :
    (∀ (path : String) (data : List Nat),
      get_md5 path (some data) = .ok (md5hex data) ∧
      (md5hex data).length = 32 ∧
      (md5hex data).toList.all lowHex = true) ∧
    md5hex (List.replicate 131072 0) = "0dfbe8aa4c20b52e1b8bf3cb6cbdf193" := by
  constructor
  · intro path data
    exact ⟨rfl, md5hex_length data, md5hex_low data⟩
  · simp only [md5hex, md5Bytes]
    rw [md5_final_state]
    decide


lemma natDigits_lt (n : Nat) : ∀ d ∈ natDigits n, d < 10 := by
  induction n using natDigits.induct with
  | case1 n h =>
    rw [natDigits, if_pos h]
    simpa using h
  | case2 n h ih =>
    rw [natDigits, if_neg h]
    intro d hd
    rcases List.mem_append.mp hd with hd1 | hd2
    · exact ih d hd1
    · simp at hd2
      subst hd2
      exact Nat.mod_lt _ (by norm_num)

lemma natDigits_ne_nil (n : Nat) : natDigits n ≠ [] := by
  induction n using natDigits.induct with
  | case1 n h => rw [natDigits, if_pos h]; simp
  | case2 n h ih => rw [natDigits, if_neg h]; simp

lemma natDigits_length_le : ∀ (k n : Nat), 1 ≤ k → n < 10 ^ k →
    (natDigits n).length ≤ k := by
  intro k
  induction k with
  | zero => intro n h1 _; omega
  | succ k ih =>
    intro n _ hn
    by_cases hsm : n < 10
    · rw [natDigits, if_pos hsm]
      simp
    · rw [natDigits, if_neg hsm]
      have hk : 1 ≤ k := by
        rcases Nat.eq_zero_or_pos k with rfl | hp
        · exfalso
          rw [pow_one] at hn
          omega
        · exact hp
      have hdiv : n / 10 < 10 ^ k := by
        rw [Nat.div_lt_iff_lt_mul (by norm_num)]
        calc n < 10 ^ (k + 1) := hn
          _ = 10 ^ k * 10 := by ring
      have := ih (n / 10) hk hdiv
      simp only [List.length_append, List.length_cons, List.length_nil]
      omega

lemma digitChar_toNat : ∀ d, d < 10 → (digitChar d).toNat = 48 + d := by decide

lemma digitChar_isDigit : ∀ d, d < 10 → (digitChar d).isDigit = true := by decide

lemma digitChar_not_ws : ∀ d, d < 10 → (digitChar d).isWhitespace = false := by decide

lemma foldl_digits (n : Nat) : ∀ (a : Nat),
    List.foldl (fun a c => a * 10 + (c.toNat - 48)) a (renderNat n) =
      a * 10 ^ (natDigits n).length + n := by
  induction n using natDigits.induct with
  | case1 n h =>
    intro a
    rw [renderNat, natDigits, if_pos h]
    simp only [List.map_cons, List.map_nil, List.foldl_cons, List.foldl_nil,
      List.length_cons, List.length_nil]
    rw [digitChar_toNat n h]
    ring_nf
    omega
  | case2 n h ih =>
    intro a
    rw [renderNat, natDigits, if_neg h]
    rw [List.map_append, List.foldl_append]
    have e1 : List.foldl (fun a c => a * 10 + (c.toNat - 48)) a
        (List.map digitChar (natDigits (n / 10))) =
        a * 10 ^ (natDigits (n / 10)).length + n / 10 := ih a
    rw [show List.map digitChar (natDigits (n / 10)) = renderNat (n / 10) from rfl] at *
    rw [e1]
    simp only [List.map_cons, List.map_nil, List.foldl_cons, List.foldl_nil,
      List.length_append, List.length_cons, List.length_nil]
    rw [digitChar_toNat (n % 10) (Nat.mod_lt _ (by norm_num))]
    have : 10 ^ ((natDigits (n / 10)).length + (0 + 1)) =
        10 ^ (natDigits (n / 10)).length * 10 := by ring
    rw [this]
    have hnd : n / 10 * 10 + n % 10 = n := by omega
    ring_nf
    omega

lemma digitsVal_renderNat (n : Nat) : digitsVal (renderNat n) = n := by
  rw [digitsVal, foldl_digits n 0]
  omega

lemma foldl_digit_zeros (k : Nat) :
    List.foldl (fun a c => a * 10 + (c.toNat - 48)) 0 (List.replicate k '0') = 0 := by
  induction k with
  | zero => rfl
  | succ k ih =>
    rw [List.replicate_succ, List.foldl_cons]
    simpa using ih

lemma digitsVal_padNum (w n : Nat) : digitsVal (padNum w n) = n := by
  rw [digitsVal, padNum, List.foldl_append, foldl_digit_zeros]
  exact digitsVal_renderNat n

lemma renderNat_mem (n : Nat) : ∀ c ∈ renderNat n, ∃ d, d < 10 ∧ c = digitChar d := by
  intro c hc
  rcases List.mem_map.mp hc with ⟨d, hd, rfl⟩
  exact ⟨d, natDigits_lt n d hd, rfl⟩

lemma padNum_mem (w n : Nat) : ∀ c ∈ padNum w n, ∃ d, d < 10 ∧ c = digitChar d := by
  intro c hc
  rcases List.mem_append.mp hc with hc1 | hc2
  · rw [List.eq_of_mem_replicate hc1]
    exact ⟨0, by norm_num, rfl⟩
  · exact renderNat_mem n c hc2

lemma padNum_length_eq (w n : Nat) (h : (natDigits n).length ≤ w) :
    (padNum w n).length = w := by
  simp only [padNum, renderNat, List.length_append, List.length_replicate, List.length_map]
  omega

lemma padNum_length_ge (w n : Nat) : w ≤ (padNum w n).length := by
  simp only [padNum, renderNat, List.length_append, List.length_replicate, List.length_map]
  omega

lemma padNum_all_digits (w n : Nat) : (padNum w n).all Char.isDigit = true := by
  rw [List.all_eq_true]
  intro c hc
  rcases padNum_mem w n c hc with ⟨d, hd, rfl⟩
  exact digitChar_isDigit d hd

lemma splitOnChar_nosep (sep : Char) : ∀ (l : List Char), (∀ c ∈ l, c ≠ sep) →
    splitOnChar sep l = [l] := by
  intro l
  induction l with
  | nil => intro _; rfl
  | cons c rest ih =>
    intro h
    rw [splitOnChar, ih (fun x hx => h x (List.mem_cons_of_mem _ hx))]
    simp [h c (List.mem_cons_self _ _)]

lemma splitOnChar_append (sep : Char) : ∀ (a r : List Char), (∀ c ∈ a, c ≠ sep) →
    splitOnChar sep (a ++ sep :: r) = a :: splitOnChar sep r := by
  intro a
  induction a with
  | nil =>
    intro r _
    rw [List.nil_append, splitOnChar]
    have hne : splitOnChar sep r ≠ [] := by
      cases r with
      | nil => simp [splitOnChar]
      | cons x xs =>
        rw [splitOnChar]
        rcases hsplit : splitOnChar sep xs with _ | ⟨hh, tt⟩
        · simp
        · by_cases hx : x = sep <;> simp [hx]
    rcases hsplit : splitOnChar sep r with _ | ⟨hh, tt⟩
    · exact absurd hsplit hne
    · simp
  | cons c a ih =>
    intro r h
    rw [List.cons_append, splitOnChar, ih r (fun x hx => h x (List.mem_cons_of_mem _ hx))]
    simp [h c (List.mem_cons_self _ _)]

lemma splitArrow_cons_ne (c : Char) (hc : c ≠ '-') (l : List Char) :
    splitArrow (c :: l) = (splitArrow l).map (fun p => (c :: p.1, p.2)) := by
  rw [splitArrow.eq_def]
  split
  · rename_i rest heq
    exact absurd (by injection heq) hc
  · rename_i c2 rest heq
    injection heq with h1 h2
    subst h1
    subst h2
    rfl
  · rename_i heq
    exact (List.cons_ne_nil _ _ heq).elim

lemma splitArrow_append (a b : List Char) (ha : ∀ c ∈ a, c ≠ '-') :
    splitArrow (a ++ '-' :: '-' :: '>' :: b) = some (a, b) := by
  induction a with
  | nil => rfl
  | cons c a ih =>
    rw [List.cons_append, splitArrow_cons_ne c (ha c (List.mem_cons_self _ _))]
    rw [ih (fun x hx => ha x (List.mem_cons_of_mem _ hx))]
    rfl

lemma dropWhile_of_all_not (p : Char → Bool) : ∀ (l : List Char),
    (∀ c ∈ l, p c = false) → l.dropWhile p = l := by
  intro l
  cases l with
  | nil => intro _; rfl
  | cons c rest =>
    intro h
    rw [List.dropWhile_cons, h c (List.mem_cons_self _ _)]
    simp

lemma trimChars_of_no_ws (l : List Char) (h : ∀ c ∈ l, c.isWhitespace = false) :
    trimChars l = l := by
  rw [trimChars, dropWS, dropWS]
  rw [dropWhile_of_all_not _ _ (fun c hc => h c (List.mem_reverse.mp hc))]
  rw [List.reverse_reverse]
  exact dropWhile_of_all_not _ _ h

lemma dropWhile_ws_append_space (m : List Char) (hm : ∀ c ∈ m, c.isWhitespace = false)
    (hne : m ≠ []) :
    List.dropWhile Char.isWhitespace (m ++ [' ']) = m ++ [' '] := by
  rcases m with _ | ⟨x, xs⟩
  · exact absurd rfl hne
  · rw [List.cons_append, List.dropWhile_cons, hm x (List.mem_cons_self _ _)]
    simp

lemma trimChars_append_space (l : List Char) (h : ∀ c ∈ l, c.isWhitespace = false) :
    trimChars (l ++ [' ']) = l := by
  rw [trimChars, dropWS, dropWS, List.reverse_append]
  simp only [List.reverse_cons, List.reverse_nil, List.nil_append, List.singleton_append]
  rw [List.dropWhile_cons, if_pos (by decide)]
  rw [dropWhile_of_all_not _ _ (fun c hc => h c (List.mem_reverse.mp hc))]
  rw [List.reverse_reverse]
  exact dropWhile_of_all_not _ _ h

lemma trimChars_cons_space (l : List Char) (h : ∀ c ∈ l, c.isWhitespace = false)
    (hne : l ≠ []) :
    trimChars (' ' :: l) = l := by
  rw [trimChars, dropWS, dropWS, List.reverse_cons]
  rw [dropWhile_ws_append_space l.reverse
    (fun c hc => h c (List.mem_reverse.mp hc)) (by simpa using hne)]
  rw [List.reverse_append]
  simp only [List.reverse_cons, List.reverse_nil, List.nil_append, List.singleton_append,
    List.reverse_reverse]
  rw [List.dropWhile_cons, if_pos (by decide)]
  exact dropWhile_of_all_not _ _ h

lemma tsChars_mem (ms : Nat) : ∀ c ∈ tsChars ms,
    (∃ d, d < 10 ∧ c = digitChar d) ∨ c = ':' ∨ c = ',' := by
  intro c hc
  rw [tsChars] at hc
  simp only [List.mem_append, List.mem_cons] at hc
  casesm* _ ∨ _
  all_goals first
    | exact Or.inl (padNum_mem _ _ c (by assumption))
    | exact Or.inr (Or.inl (by assumption))
    | exact Or.inr (Or.inr (by assumption))

lemma digitChar_ne : ∀ d, d < 10 → digitChar d ≠ ':' ∧ digitChar d ≠ ',' ∧
    digitChar d ≠ '-' ∧ digitChar d ≠ '\n' ∧ digitChar d ≠ '\r' := by decide

lemma tsChar_not_ws (ms : Nat) : ∀ c ∈ tsChars ms, c.isWhitespace = false := by
  intro c hc
  rcases tsChars_mem ms c hc with ⟨d, hd, rfl⟩ | rfl | rfl
  · exact digitChar_not_ws d hd
  · decide
  · decide

lemma tsChar_ne_dash (ms : Nat) : ∀ c ∈ tsChars ms, c ≠ '-' := by
  intro c hc
  rcases tsChars_mem ms c hc with ⟨d, hd, rfl⟩ | rfl | rfl
  · exact (digitChar_ne d hd).2.2.1
  · decide
  · decide

lemma tsChar_ne_nl (ms : Nat) : ∀ c ∈ tsChars ms, c ≠ '\n' := by
  intro c hc
  rcases tsChars_mem ms c hc with ⟨d, hd, rfl⟩ | rfl | rfl
  · exact (digitChar_ne d hd).2.2.2.1
  · decide
  · decide

lemma tsChar_ne_cr (ms : Nat) : ∀ c ∈ tsChars ms, c ≠ '\r' := by
  intro c hc
  rcases tsChars_mem ms c hc with ⟨d, hd, rfl⟩ | rfl | rfl
  · exact (digitChar_ne d hd).2.2.2.2
  · decide
  · decide

lemma padNum_ne_colon (w n : Nat) : ∀ c ∈ padNum w n, c ≠ ':' := by
  intro c hc
  rcases padNum_mem w n c hc with ⟨d, hd, rfl⟩
  exact (digitChar_ne d hd).1

lemma padNum_ne_comma (w n : Nat) : ∀ c ∈ padNum w n, c ≠ ',' := by
  intro c hc
  rcases padNum_mem w n c hc with ⟨d, hd, rfl⟩
  exact (digitChar_ne d hd).2.1

lemma parseTS_tsChars (ms : Nat) : parseTS (tsChars ms) = some ms := by
  have e : tsChars ms = padNum 2 (ms / 3600000) ++ ':' ::
      (padNum 2 (ms / 60000 % 60) ++ ':' ::
        (padNum 2 (ms / 1000 % 60) ++ ',' :: padNum 3 (ms % 1000))) := by
    rw [tsChars]
    simp [List.append_assoc]
  have split1 : splitOnChar ':' (tsChars ms) =
      [padNum 2 (ms / 3600000), padNum 2 (ms / 60000 % 60),
       padNum 2 (ms / 1000 % 60) ++ ',' :: padNum 3 (ms % 1000)] := by
    rw [e]
    rw [splitOnChar_append ':' _ _ (padNum_ne_colon _ _)]
    rw [splitOnChar_append ':' _ _ (padNum_ne_colon _ _)]
    rw [splitOnChar_nosep ':' _ ?_]
    · intro c hc
      rcases List.mem_append.mp hc with h | h
      · exact padNum_ne_colon _ _ c h
      · rcases List.mem_cons.mp h with rfl | h
        · decide
        · exact padNum_ne_colon _ _ c h
  have split2 : splitOnChar ',' (padNum 2 (ms / 1000 % 60) ++ ',' :: padNum 3 (ms % 1000)) =
      [padNum 2 (ms / 1000 % 60), padNum 3 (ms % 1000)] := by
    rw [splitOnChar_append ',' _ _ (padNum_ne_comma _ _)]
    rw [splitOnChar_nosep ',' _ (padNum_ne_comma _ _)]
  have l2 : (padNum 2 (ms / 60000 % 60)).length = 2 :=
    padNum_length_eq _ _ (natDigits_length_le 2 _ (by norm_num) (by omega))
  have l3 : (padNum 2 (ms / 1000 % 60)).length = 2 :=
    padNum_length_eq _ _ (natDigits_length_le 2 _ (by norm_num) (by omega))
  have l4 : (padNum 3 (ms % 1000)).length = 3 :=
    padNum_length_eq _ _ (natDigits_length_le 3 _ (by norm_num) (by omega))
  simp only [parseTS, split1, split2]
  rw [if_pos ?_]
  · rw [digitsVal_padNum, digitsVal_padNum, digitsVal_padNum, digitsVal_padNum]
    congr 1
    omega
  · refine ⟨padNum_length_ge 2 _, ?_, l2, ?_, l3, ?_, l4, ?_⟩ <;>
      exact padNum_all_digits _ _

lemma tsChars_ne_nil (ms : Nat) : tsChars ms ≠ [] := by
  rw [tsChars]
  intro h
  have := congrArg List.length h
  simp only [List.length_append, List.length_cons, List.length_nil] at this
  omega

lemma parseTimeLineL_round (s e : Nat) :
    parseTimeLineL (tsChars s ++ ' ' :: '-' :: '-' :: '>' :: ' ' :: tsChars e) =
      some (s, e) := by
  have harr : tsChars s ++ ' ' :: '-' :: '-' :: '>' :: ' ' :: tsChars e =
      (tsChars s ++ [' ']) ++ '-' :: '-' :: '>' :: (' ' :: tsChars e) := by
    simp
  have hnd : ∀ c ∈ tsChars s ++ [' '], c ≠ '-' := by
    intro c hc
    rcases List.mem_append.mp hc with h | h
    · exact tsChar_ne_dash s c h
    · simp at h
      subst h
      decide
  rw [parseTimeLineL, harr, splitArrow_append _ _ hnd]
  simp only
  rw [trimChars_append_space _ (tsChar_not_ws s),
    trimChars_cons_space _ (tsChar_not_ws e) (tsChars_ne_nil e)]
  rw [parseTS_tsChars, parseTS_tsChars]

lemma renderNat_not_ws (n : Nat) : ∀ c ∈ renderNat n, c.isWhitespace = false := by
  intro c hc
  rcases renderNat_mem n c hc with ⟨d, hd, rfl⟩
  exact digitChar_not_ws d hd

lemma renderNat_ne_nil (n : Nat) : renderNat n ≠ [] := by
  rw [renderNat]
  simp [natDigits_ne_nil n]

lemma parseIndexL_renderNat (n : Nat) : parseIndexL (renderNat n) = some n := by
  rw [parseIndexL]
  simp only [trimChars_of_no_ws _ (renderNat_not_ws n)]
  rw [if_neg (by simp [List.isEmpty_eq_true, renderNat_ne_nil n])]
  rw [if_pos ?_]
  · rw [digitsVal_renderNat]
  · rw [List.all_eq_true]
    intro c hc
    rcases renderNat_mem n c hc with ⟨d, hd, rfl⟩
    exact digitChar_isDigit d hd

lemma all_false_of_mem {p : Char → Bool} {l : List Char} {c : Char}
    (hc : c ∈ l) (hp : p c = false) : l.all p = false := by
  rcases h : l.all p with _ | _
  · rfl
  · rw [List.all_eq_true] at h
    rw [h c hc] at hp
    exact absurd hp (by simp)

lemma isBlankL_renderNat (n : Nat) : isBlankL (renderNat n) = false := by
  rcases hl : renderNat n with _ | ⟨c, rest⟩
  · exact absurd hl (renderNat_ne_nil n)
  · have hc : c ∈ renderNat n := by rw [hl]; exact List.mem_cons_self _ _
    rw [isBlankL]
    exact all_false_of_mem (List.mem_cons_self _ _) (renderNat_not_ws n c hc)

lemma isBlankL_timeLine (c : Cue) : isBlankL (timeLineChars c) = false := by
  have hm : '-' ∈ timeLineChars c := by
    rw [timeLineChars]
    simp
  rw [isBlankL]
  exact all_false_of_mem hm (by decide)

lemma validTextLine_spec (t : String) (h : validTextLine t = true) :
    isBlankL t.toList = false ∧ (∀ c ∈ t.toList, c ≠ '\n') ∧ ∀ c ∈ t.toList, c ≠ '\r' := by
  rw [validTextLine, Bool.and_eq_true, List.all_eq_true] at h
  obtain ⟨h1, h2⟩ := h
  refine ⟨by simpa using h1, fun c hc => ?_, fun c hc => ?_⟩
  · have := h2 c hc
    simp [Bool.and_eq_true] at this
    exact this.1
  · have := h2 c hc
    simp [Bool.and_eq_true] at this
    exact this.2

lemma renderNat_ne_nl (n : Nat) : ∀ c ∈ renderNat n, c ≠ '\n' := by
  intro c hc
  rcases renderNat_mem n c hc with ⟨d, hd, rfl⟩
  exact (digitChar_ne d hd).2.2.2.1

lemma renderNat_ne_cr (n : Nat) : ∀ c ∈ renderNat n, c ≠ '\r' := by
  intro c hc
  rcases renderNat_mem n c hc with ⟨d, hd, rfl⟩
  exact (digitChar_ne d hd).2.2.2.2

lemma timeLine_mem (c : Cue) : ∀ x ∈ timeLineChars c,
    x ∈ tsChars c.start ∨ x ∈ tsChars c.stop ∨ x = ' ' ∨ x = '-' ∨ x = '>' := by
  intro x hx
  rw [timeLineChars] at hx
  simp only [List.mem_append, List.mem_cons] at hx
  casesm* _ ∨ _
  all_goals first
    | exact Or.inl (by assumption)
    | exact Or.inr (Or.inl (by assumption))
    | exact Or.inr (Or.inr (Or.inl (by assumption)))
    | exact Or.inr (Or.inr (Or.inr (Or.inl (by assumption))))
    | exact Or.inr (Or.inr (Or.inr (Or.inr (by assumption))))

lemma timeLine_ne_nl (c : Cue) : ∀ x ∈ timeLineChars c, x ≠ '\n' := by
  intro x hx
  rcases timeLine_mem c x hx with h | h | rfl | rfl | rfl
  · exact tsChar_ne_nl _ x h
  · exact tsChar_ne_nl _ x h
  all_goals decide

lemma timeLine_ne_cr (c : Cue) : ∀ x ∈ timeLineChars c, x ≠ '\r' := by
  intro x hx
  rcases timeLine_mem c x hx with h | h | rfl | rfl | rfl
  · exact tsChar_ne_cr _ x h
  · exact tsChar_ne_cr _ x h
  all_goals decide

lemma split_joinLines : ∀ (texts : List (List Char)) (rest : List Char),
    texts ≠ [] → (∀ t ∈ texts, ∀ c ∈ t, c ≠ '\n') →
    splitOnChar '\n' (joinLines texts ++ '\n' :: rest) =
      texts ++ splitOnChar '\n' rest := by
  intro texts
  induction texts with
  | nil => intro rest h _; exact absurd rfl h
  | cons t ts ih =>
    intro rest _ hn
    cases ts with
    | nil =>
      rw [joinLines, splitOnChar_append '\n' _ _ (hn t (List.mem_cons_self _ _))]
      rfl
    | cons t2 ts2 =>
      rw [joinLines, List.append_assoc, List.cons_append]
      rw [splitOnChar_append '\n' _ _ (hn t (List.mem_cons_self _ _))]
      have h1 : t2 :: ts2 ≠ [] := List.cons_ne_nil _ _
      have h2 : ∀ x ∈ t2 :: ts2, ∀ c ∈ x, c ≠ '\n' :=
        fun x hx => hn x (List.mem_cons_of_mem _ hx)
      rw [ih rest h1 h2]
      · rfl
      · exact fun h => List.noConfusion h

lemma split_cueBlock (n : Nat) (c : Cue) (rest : List Char)
    (htext : c.text ≠ []) (hv : ∀ t ∈ c.text, validTextLine t = true) :
    splitOnChar '\n' (cueBlock n c ++ '\n' :: rest) =
      cueLines n c ++ splitOnChar '\n' rest := by
  have e : cueBlock n c ++ '\n' :: rest = renderNat n ++ '\n' ::
      (timeLineChars c ++ '\n' ::
        (joinLines (c.text.map String.toList) ++ '\n' :: rest)) := by
    rw [cueBlock]
    simp [List.append_assoc]
  rw [e, splitOnChar_append '\n' _ _ (renderNat_ne_nl n),
    splitOnChar_append '\n' _ _ (timeLine_ne_nl c)]
  rw [split_joinLines (c.text.map String.toList) rest (by simpa using htext) ?_]
  · rfl
  · intro t ht
    rcases List.mem_map.mp ht with ⟨str, hstr, rfl⟩
    exact (validTextLine_spec str (hv str hstr)).2.1

lemma lines_serializeFrom : ∀ (S : List Cue) (n : Nat), S ≠ [] →
    (∀ x ∈ S, x.text ≠ [] ∧ ∀ t ∈ x.text, validTextLine t = true) →
    splitOnChar '\n' (serializeFrom n S ++ ['\n']) = linesOf n S := by
  intro S
  induction S with
  | nil => intro n h _; exact absurd rfl h
  | cons c rest ih =>
    intro n _ hv
    cases rest with
    | nil =>
      rw [serializeFrom, linesOf, linesOf]
      have := split_cueBlock n c [] (hv c (List.mem_cons_self _ _)).1
        (hv c (List.mem_cons_self _ _)).2
      rw [show cueBlock n c ++ ['\n'] = cueBlock n c ++ '\n' :: [] from rfl, this]
      rfl
    | cons c2 rest2 =>
      rw [serializeFrom, linesOf]
      have e : (cueBlock n c ++ '\n' :: '\n' :: serializeFrom (n + 1) (c2 :: rest2)) ++ ['\n'] =
          cueBlock n c ++ '\n' :: ('\n' :: (serializeFrom (n + 1) (c2 :: rest2) ++ ['\n'])) := by
        simp [List.append_assoc]
      rw [e, split_cueBlock n c _ (hv c (List.mem_cons_self _ _)).1
        (hv c (List.mem_cons_self _ _)).2]
      have e2 : splitOnChar '\n' ('\n' :: (serializeFrom (n + 1) (c2 :: rest2) ++ ['\n'])) =
          [] :: splitOnChar '\n' (serializeFrom (n + 1) (c2 :: rest2) ++ ['\n']) := by
        have := splitOnChar_append '\n' [] (serializeFrom (n + 1) (c2 :: rest2) ++ ['\n'])
          (by simp)
        simpa using this
      have h1 : c2 :: rest2 ≠ [] := List.cons_ne_nil _ _
      have h2 : ∀ x ∈ c2 :: rest2, x.text ≠ [] ∧ ∀ t ∈ x.text, validTextLine t = true :=
        fun x hx => hv x (List.mem_cons_of_mem _ hx)
      rw [e2, ih (n + 1) h1 h2]
      exact fun h => List.noConfusion h

lemma dropLastCR_no_cr (l : List Char) (h : ∀ c ∈ l, c ≠ '\r') : dropLastCR l = l := by
  rw [dropLastCR]
  by_cases hg : l.getLast? = some '\r'
  · exfalso
    have hne : l ≠ [] := by
      intro e
      rw [e] at hg
      simp at hg
    rw [List.getLast?_eq_getLast l hne] at hg
    have : l.getLast hne = '\r' := by injection hg
    exact h _ (List.getLast_mem hne) this
  · rw [if_neg hg]

lemma map_dropLastCR_linesOf : ∀ (S : List Cue) (n : Nat),
    (∀ x ∈ S, x.text ≠ [] ∧ ∀ t ∈ x.text, validTextLine t = true) →
    (linesOf n S).map dropLastCR = linesOf n S := by
  intro S
  induction S with
  | nil => intro n _; rfl
  | cons c rest ih =>
    intro n hv
    rw [linesOf, List.map_append, cueLines]
    rw [List.map_cons, List.map_cons, List.map_cons]
    rw [dropLastCR_no_cr _ (renderNat_ne_cr n), dropLastCR_no_cr _ (timeLine_ne_cr c)]
    rw [dropLastCR_no_cr [] (by simp)]
    rw [ih (n + 1) (fun x hx => hv x (List.mem_cons_of_mem _ hx))]
    have etext : (c.text.map String.toList).map dropLastCR = c.text.map String.toList := by
      rw [List.map_map]
      apply List.map_congr_left
      intro str hstr
      exact dropLastCR_no_cr _ (validTextLine_spec str
        ((hv c (List.mem_cons_self _ _)).2 str hstr)).2.2
    rw [etext]

lemma takeWhile_block {p : List Char → Bool} : ∀ (A : List (List Char)) (b : List Char)
    (r : List (List Char)), (∀ x ∈ A, p x = true) → p b = false →
    (A ++ b :: r).takeWhile p = A ∧ (A ++ b :: r).dropWhile p = b :: r := by
  intro A
  induction A with
  | nil =>
    intro b r _ hb
    rw [List.nil_append]
    constructor
    · rw [List.takeWhile_cons, hb]
      simp
    · rw [List.dropWhile_cons, hb]
      simp
  | cons a A ih =>
    intro b r hA hb
    have ha := hA a (List.mem_cons_self _ _)
    have hrest := ih b r (fun x hx => hA x (List.mem_cons_of_mem _ hx)) hb
    rw [List.cons_append, List.takeWhile_cons, List.dropWhile_cons, ha]
    simp only [if_true]
    exact ⟨by rw [hrest.1], by rw [hrest.2]⟩

lemma mk_toList (s : String) : String.mk s.toList = s := rfl

lemma toList_mk (l : List Char) : (String.mk l).toList = l := rfl

lemma parseTimeLine_timeLineChars (c : Cue) :
    parseTimeLineL (timeLineChars c) = some (c.start, c.stop) := by
  rw [timeLineChars]
  exact parseTimeLineL_round _ _

lemma texts_nonblank (c : Cue) (hv : ∀ t ∈ c.text, validTextLine t = true) :
    ∀ x ∈ c.text.map String.toList, (!isBlankL x) = true := by
  intro x hx
  rcases List.mem_map.mp hx with ⟨str, hstr, rfl⟩
  rw [(validTextLine_spec str (hv str hstr)).1]
  rfl

lemma parseCues_linesOf : ∀ (S : List Cue) (n ln f : Nat),
    (∀ x ∈ S, x.text ≠ [] ∧ ∀ t ∈ x.text, validTextLine t = true) →
    (linesOf n S).length ≤ f →
    parseCues f (linesOf n S) ln = .ok (renumber n S) := by
  intro S
  induction S with
  | nil =>
    intro n ln f _ _
    cases f <;> rfl
  | cons c rest ih =>
    intro n ln f hv hf
    obtain ⟨hct, hcv⟩ := hv c (List.mem_cons_self _ _)
    have hlen : (linesOf n (c :: rest)).length =
        3 + (c.text.map String.toList).length + (linesOf (n + 1) rest).length := by
      rw [linesOf, cueLines]
      simp only [List.length_append, List.length_cons]
      omega
    have e : linesOf n (c :: rest) = renderNat n :: timeLineChars c ::
        (c.text.map String.toList ++ [] :: linesOf (n + 1) rest) := by
      rw [linesOf, cueLines]
      simp [List.cons_append]
    rcases f with _ | f
    · omega
    rw [e, parseCues]
    rw [isBlankL_renderNat n]
    simp only [Bool.false_eq_true, if_false]
    rw [parseIndexL_renderNat n]
    simp only
    rw [parseTimeLine_timeLineChars c]
    simp only
    have htw := takeWhile_block (p := fun x => !isBlankL x)
      (c.text.map String.toList) [] (linesOf (n + 1) rest)
      (texts_nonblank c hcv) (by rfl)
    rw [htw.1, htw.2]
    rw [if_neg ?empty]
    case empty =>
      simp only [List.isEmpty_eq_true, List.map_eq_nil_iff]
      exact fun h => absurd h hct
    rcases f with _ | f
    · exfalso
      omega
    rw [parseCues]
    rw [show isBlankL [] = true from rfl]
    simp only [if_true]
    rw [ih (n + 1) _ f (fun x hx => hv x (List.mem_cons_of_mem _ hx)) (by omega)]
    simp only
    have etext : (c.text.map String.toList).map (fun b => String.mk b) = c.text := by
      rw [List.map_map]
      have : (fun b => String.mk b) ∘ String.toList = id := by
        funext s
        exact mk_toList s
      rw [this, List.map_id]
    rw [renumber]
    congr 1
    rw [etext]

lemma serializeFrom_head (n : Nat) (c : Cue) (rest : List Cue) :
    ∃ t, serializeFrom n (c :: rest) = cueBlock n c ++ t := by
  cases rest with
  | nil => exact ⟨[], by rw [serializeFrom, List.append_nil]⟩
  | cons c2 r2 =>
    refine ⟨'\n' :: '\n' :: serializeFrom (n + 1) (c2 :: r2), ?_⟩
    rw [serializeFrom]
    exact fun h => List.noConfusion h

lemma renderNat_one : renderNat 1 = ['1'] := by
  rw [renderNat, natDigits, if_pos (by norm_num)]
  rfl

/-- C5: for every non-empty cue sequence with non-empty, line-terminator-free,
non-blank text lines, parsing the serialized document yields exactly the
cues renumbered sequentially from 1, with text, start and stop preserved. -/
theorem parse_serialize_roundtrip (S : List Cue) (hne : S ≠ [])
    (hv : ∀ x ∈ S, x.text ≠ [] ∧ ∀ t ∈ x.text, validTextLine t = true) :
    parse (serialize S) = .ok (renumber 1 S) := by
  obtain ⟨c, rest, rfl⟩ := List.exists_cons_of_ne_nil hne
  obtain ⟨t, ht⟩ := serializeFrom_head 1 c rest
  have hhead : (serializeFrom 1 (c :: rest) ++ ['\n']).head? = some '1' := by
    rw [ht, cueBlock, renderNat_one]
    rfl
  rw [serialize, parse]
  simp only [toList_mk]
  rw [hhead, if_neg (by decide)]
  rw [lines_serializeFrom (c :: rest) 1 hne hv]
  rw [map_dropLastCR_linesOf (c :: rest) 1 hv]
  exact parseCues_linesOf (c :: rest) 1 1 _ hv le_rfl

/-- C5 witness: the round trip applied to a concrete one-cue sequence. -/
theorem parse_serialize_roundtrip_witness :
    parse (serialize [{ index := 7, start := 10500, stop := 14000, text := ["Hello"] }]) =
      .ok (renumber 1 [{ index := 7, start := 10500, stop := 14000, text := ["Hello"] }]) :=
  parse_serialize_roundtrip _ (by decide) (by decide)
